import Mathlib

/-!
Shallow embedding of the pi2c-sniffer I2C decoder (pi2c-sniffer.py): the
packet/parcel data model, the edge-to-packet decoder `_parse`, and the
history queries, together with proofs of the behavioural properties of the
decoder.

Modelling conventions:
* GPIO line levels are naturals (the source receives 0/1 from the GPIO
  library and also relies on truthiness of the level).
* Times are integers.  The source uses float seconds from time.time(); the
  properties under study only subtract and compare timestamps, so an
  abstract integer clock is used.  The process-wide epoch
  (I2CPacket.startTimestamp in the source) is passed explicitly as the
  `epoch` argument.
* Fallible operations (Python list indexing that can raise IndexError,
  attribute access on None) are modelled with Option: `none` is the
  raising outcome.
* The pigpio plumbing (_cb, start, stop, sniff) and the demonstration
  callback are external glue and are not part of the embedding; the
  observer callback invoked at STOP only reads state, so omitting the call
  does not change the decoder state evolution.
-/

/-- One address/direction burst (class I2CParcel, pi2c-sniffer.py lines
64-91).  Field defaults mirror the Python constructor defaults. -/
structure I2CParcel where
  address : Nat := 0
  is_read : Bool := true
  data : List Nat := []
  deriving DecidableEq

/-- I2CParcel.setAddress (line 77). -/
def I2CParcel.setAddress (pc : I2CParcel) (a : Nat) : I2CParcel :=
  { pc with address := a }

/-- I2CParcel.setIsRead (line 80). -/
def I2CParcel.setIsRead (pc : I2CParcel) (r : Bool) : I2CParcel :=
  { pc with is_read := r }

/-- I2CParcel.addDataByte (line 83): appends at the end of data. -/
def I2CParcel.addDataByte (pc : I2CParcel) (b : Nat) : I2CParcel :=
  { pc with data := pc.data ++ [b] }

/-- One complete bus transaction (class I2CPacket, lines 9-62). -/
structure I2CPacket where
  timestamp : Int
  parcels : List I2CParcel
  deriving DecidableEq

/-- I2CPacket.__init__ (lines 34-36) as called with no argument inside
_parse: timestamp is the current time minus the process-wide epoch
I2CPacket.startTimestamp, parcels start empty. -/
def I2CPacket.create (now epoch : Int) : I2CPacket :=
  { timestamp := now - epoch, parcels := [] }

/-- I2CPacket.addParcel (line 38): appends at the end of parcels. -/
def I2CPacket.addParcel (pk : I2CPacket) (pc : I2CParcel) : I2CPacket :=
  { pk with parcels := pk.parcels ++ [pc] }

/-- I2CPacket.firstParcel (line 41): `self.parcels[0]`, raising (none)
when there is no parcel. -/
def I2CPacket.firstParcel (pk : I2CPacket) : Option I2CParcel :=
  pk.parcels[0]?

/-- I2CPacket.secondParcel (line 44): `parcels[1] if len > 1 else None`,
which coincides with optional indexing at 1. -/
def I2CPacket.secondParcel (pk : I2CPacket) : Option I2CParcel :=
  pk.parcels[1]?

/-- I2CPacket.isWritePacket (line 47): exactly one parcel and it is not a
read.  The Python `and` short-circuits, so the first parcel is only
inspected when the length really is 1. -/
def I2CPacket.isWritePacket (pk : I2CPacket) : Bool :=
  match pk.parcels with
  | [pc] => !pc.is_read
  | _ => false

/-- I2CPacket.isReadPacket (line 49): exactly two parcels, first a write,
second a read. -/
def I2CPacket.isReadPacket (pk : I2CPacket) : Bool :=
  match pk.parcels with
  | [pc1, pc2] => !pc1.is_read && pc2.is_read
  | _ => false

/-- I2CPacket.getRegister (line 52): `firstParcel().data[0]`; raises
(none) when there is no parcel or the first parcel has no data. -/
def I2CPacket.getRegister (pk : I2CPacket) : Option Nat :=
  pk.firstParcel.bind fun pc => pc.data[0]?

/-- I2CPacket.getData (line 54): the second parcel's data for a read
packet, otherwise `firstParcel().data[1:]` (the Python slice never
raises; firstParcel does when there is no parcel). -/
def I2CPacket.getData (pk : I2CPacket) : Option (List Nat) :=
  if pk.isReadPacket then pk.secondParcel.map (fun pc => pc.data)
  else pk.firstParcel.map (fun pc => pc.data.drop 1)

/-- Edge kinds (I2CSniffer.__init__, lines 101-103). -/
def FALLING : Nat := 0

/-- Edge kind RISING (line 102). -/
def RISING : Nat := 1

/-- Edge kind STEADY (line 103). -/
def STEADY : Nat := 2

/-- Decoder state (I2CSniffer.__init__, lines 105-113).  The pigpio pin
bookkeeping and the callback slot carry no decoding state and are
omitted. -/
structure I2CSniffer where
  packet : Option I2CPacket
  parcel : Option I2CParcel
  packetHistory : List I2CPacket
  oldSCL : Nat
  oldSDA : Nat
  value : Nat
  nbits : Nat
  deriving DecidableEq

/-- The freshly constructed decoder state (lines 105-113). -/
def initSniffer : I2CSniffer :=
  { packet := none, parcel := none, packetHistory := []
    oldSCL := 1, oldSDA := 1, value := 0, nbits := 0 }

/-- The edge classification of lines 138-148, for one line: RISING on
0 to nonzero, FALLING on change to 0, STEADY when the level is unchanged
(the source tests truthiness of the new level). -/
def classifyLine (old new : Nat) : Nat :=
  if new ≠ old then (if new ≠ 0 then RISING else FALLING) else STEADY

/-- The rule part of I2CSniffer._parse (lines 151-188), applied to the
state whose recorded line levels have already been updated (the source
writes the level back only when it changed, which yields the same state
as always recording the observed level).  `none` models a Python
exception: dereferencing an absent packet in the STOP branch, or
attaching an absent parcel in the repeated-START branch (where the source
would silently append None and poison the packet; both are proved
unreachable from the initial state). -/
def parseBody (epoch : Int) (xSCL xSDA SCL SDA : Nat) (t : Int)
    (s : I2CSniffer) : Option I2CSniffer :=
  if xSCL = RISING ∧ s.parcel ≠ none then
    match s.parcel with
    | some pc =>
      let nbits := s.nbits + 1
      let value := (s.value <<< 1) ||| SDA
      if nbits = 7 then
        some { s with nbits := nbits, value := 0,
                      parcel := some (pc.setAddress value) }
      else if nbits = 8 then
        some { s with nbits := nbits, value := 0,
                      parcel := some (pc.setIsRead (value == 1)) }
      else if ((nbits : Int) - 10) % 9 + 1 = 8 then
        some { s with nbits := nbits, value := 0,
                      parcel := some (pc.addDataByte value) }
      else if ((nbits : Int) - 10) % 9 + 1 = 9 then
        some { s with nbits := nbits, value := 0 }
      else
        some { s with nbits := nbits, value := value }
    | none => none
  else if xSCL = STEADY ∧ SCL = 1 then
    if xSDA = FALLING then
      match s.packet with
      | none =>
        some { s with packet := some (I2CPacket.create t epoch),
                      parcel := some {}, nbits := 0, value := 0 }
      | some pk =>
        match s.parcel with
        | some pc =>
          some { s with packet := some (pk.addParcel pc),
                        parcel := some {}, nbits := 0, value := 0 }
        | none => none
    else if xSDA = RISING ∧ s.parcel ≠ none then
      match s.packet, s.parcel with
      | some pk, some pc =>
        some { s with packet := none, parcel := none,
                      packetHistory := s.packetHistory ++ [pk.addParcel pc] }
      | none, _ => none
      | some _, none => none
    else
      some s
  else
    some s

/-- I2CSniffer._parse (lines 137-188): classify both lines against the
recorded levels, record the observed levels, then apply the decoding
rules.  `t` is the time at which the event is processed (the source reads
time.time() lazily when a packet is created). -/
def parse (epoch : Int) (s : I2CSniffer) (SCL SDA : Nat) (t : Int) :
    Option I2CSniffer :=
  parseBody epoch (classifyLine s.oldSCL SCL) (classifyLine s.oldSDA SDA)
    SCL SDA t { s with oldSCL := SCL, oldSDA := SDA }

/-- One edge event: the levels handed to _parse and the processing time. -/
structure Ev where
  SCL : Nat
  SDA : Nat
  t : Int
  deriving DecidableEq

/-- Feeding a stream of edge events through the decoder, stopping at the
first Python exception. -/
def runEvents (epoch : Int) (s : I2CSniffer) : List Ev → Option I2CSniffer
  | [] => some s
  | e :: es =>
    match parse epoch s e.SCL e.SDA e.t with
    | some s2 => runEvents epoch s2 es
    | none => none

/-- Python list indexing, including the negative-index wraparound:
`l[i]` is `l[len l + i]` for `-len l ≤ i < 0`, and raises (none) outside
`-len l ≤ i < len l`. -/
def pyIndex {α : Type} (l : List α) (i : Int) : Option α :=
  if 0 ≤ i then l[i.toNat]?
  else if 0 ≤ i + l.length then l[(i + l.length).toNat]?
  else none

/-- I2CSniffer.getPacketHistory (line 123). -/
def I2CSniffer.getPacketHistory (s : I2CSniffer) : List I2CPacket :=
  s.packetHistory

/-- I2CSniffer.getLastestPacket (line 126):
`packetHistory[len(packetHistory)-1]`. -/
def I2CSniffer.getLastestPacket (s : I2CSniffer) : Option I2CPacket :=
  pyIndex s.packetHistory ((s.packetHistory.length : Int) - 1)

/-- I2CSniffer.getSecondLatestPacket (line 129):
`packetHistory[len(packetHistory)-2]`; for a one-element history the
index is -1, which Python wraps around to the last element. -/
def I2CSniffer.getSecondLatestPacket (s : I2CSniffer) : Option I2CPacket :=
  pyIndex s.packetHistory ((s.packetHistory.length : Int) - 2)

/-- I2CSniffer.getLatestWithPredicate (lines 132-135): first match while
iterating the history newest-to-oldest, None (none) when nothing
matches. -/
def I2CSniffer.getLatestWithPredicate (s : I2CSniffer)
    (pred : I2CPacket → Bool) : Option I2CPacket :=
  s.packetHistory.reverse.find? pred

/-!
Synthetic edge-event encodings of bus transactions, used to state the
end-to-end decoding properties.  A data bit is clocked by setting SDA
while SCL is low, raising SCL (the decoder samples on this rising edge)
and lowering SCL again.  As on a real bus, the rising SCL edge that
precedes a STOP or a repeated START is itself sampled by the decoder as
one extra (discarded) bit.
-/

/-- The most significant `w` bits of `x`, most significant first. -/
def bitsOf : Nat → Nat → List Nat
  | 0, _ => []
  | w + 1, x => bitsOf w (x / 2) ++ [x % 2]

/-- Clocking one data bit: set SDA with SCL low, raise SCL, lower SCL. -/
def clockBit (b : Nat) : List Ev :=
  [⟨0, b, 0⟩, ⟨1, b, 0⟩, ⟨0, b, 0⟩]

/-- Clocking a list of data bits in order. -/
def feedBits : List Nat → List Ev
  | [] => []
  | b :: bs => clockBit b ++ feedBits bs

/-- All sampled bits of one write transaction after the START: 7 address
bits, the W direction bit (0), the address ACK (0), two data bytes each
followed by an ACK (0). -/
def writeBits (A B1 B2 : Nat) : List Nat :=
  bitsOf 7 A ++ [0] ++ [0] ++ bitsOf 8 B1 ++ [0] ++ bitsOf 8 B2 ++ [0]

/-- The edge-event stream of the single write transaction
START, address A, WRITE, byte B1 (acked), byte B2 (acked), STOP, with the
START processed at time tS and the STOP at time tE.  The STOP is the SDA
rise at high SCL; the preceding SCL rise is sampled as an extra bit. -/
def txWrite (A B1 B2 : Nat) (tS tE : Int) : List Ev :=
  ⟨1, 0, tS⟩ :: ⟨0, 0, 0⟩ ::
    (feedBits (writeBits A B1 B2) ++ [⟨1, 0, 0⟩, ⟨1, 1, tE⟩])

/-- All sampled bits of the second (read) parcel of a register read:
7 address bits, the R direction bit (1), the address ACK (0), two data
bytes each followed by an ACK (0). -/
def readBits (A D1 D2 : Nat) : List Nat :=
  bitsOf 7 A ++ [1] ++ [0] ++ bitsOf 8 D1 ++ [0] ++ bitsOf 8 D2 ++ [0]

/-- The edge-event stream of the register-read transaction
START, A, WRITE, reg (acked), repeated START, A, READ, D1 (acked),
D2 (acked), STOP.  The repeated START is the SDA fall at high SCL; the
preceding SDA rise happens at low SCL and the SCL rise before it is
sampled as an extra bit, as on a real bus. -/
def txRead (A reg D1 D2 : Nat) (tS tE : Int) : List Ev :=
  ⟨1, 0, tS⟩ :: ⟨0, 0, 0⟩ ::
    (feedBits (bitsOf 7 A ++ [0] ++ [0] ++ bitsOf 8 reg ++ [0]) ++
      (⟨0, 1, 0⟩ :: ⟨1, 1, 0⟩ :: ⟨1, 0, 0⟩ :: ⟨0, 0, 0⟩ ::
        (feedBits (readBits A D1 D2) ++ [⟨1, 0, 0⟩, ⟨1, 1, tE⟩])))

/-!
Step lemmas: closed forms for `parse` on each kind of event our encoders
produce.  All definitions below are proof infrastructure about the
embedded source functions.
-/

/-- The effect of a rising-SCL edge (lines 151-166) on a state whose
recorded levels have already been updated; identity when no parcel is in
progress. -/
def sampleBit (SDA : Nat) (s : I2CSniffer) : I2CSniffer :=
  match s.parcel with
  | none => s
  | some pc =>
    let nbits := s.nbits + 1
    let value := (s.value <<< 1) ||| SDA
    if nbits = 7 then
      { s with nbits := nbits, value := 0, parcel := some (pc.setAddress value) }
    else if nbits = 8 then
      { s with nbits := nbits, value := 0, parcel := some (pc.setIsRead (value == 1)) }
    else if ((nbits : Int) - 10) % 9 + 1 = 8 then
      { s with nbits := nbits, value := 0, parcel := some (pc.addDataByte value) }
    else if ((nbits : Int) - 10) % 9 + 1 = 9 then
      { s with nbits := nbits, value := 0 }
    else
      { s with nbits := nbits, value := value }

/-- Net effect of clocking one bit (`clockBit`) from an SCL-low state. -/
def bitstep (b : Nat) (s : I2CSniffer) : I2CSniffer :=
  { sampleBit b s with oldSCL := 0, oldSDA := b }

/-- The cycle position of the claims: `k = (n - 10) mod 9 + 1` with Python
(sign-of-divisor) semantics, i.e. integer emod. -/
def kOf (n : Nat) : Int :=
  ((n : Int) - 10) % 9 + 1

/-- Bit counts at which the rising-edge rule does more than accumulate. -/
def emitsAt (n : Nat) : Prop :=
  n = 7 ∨ n = 8 ∨ kOf n = 8 ∨ kOf n = 9

instance (n : Nat) : Decidable (emitsAt n) := by
  unfold emitsAt kOf
  infer_instance

/-- The source's accumulator step `value = (value << 1) | bit` over a list
of sampled bits. -/
def accBits (v : Nat) : List Nat → Nat
  | [] => v
  | b :: bs => accBits ((v <<< 1) ||| b) bs

/-- Last element of a bit list, with a default for the empty list. -/
def lastD (d : Nat) : List Nat → Nat
  | [] => d
  | b :: bs => lastD b bs

theorem parse_sclLow (epoch t : Int) (s : I2CSniffer) (b : Nat)
    (h : s.oldSCL = 0) : parse epoch s 0 b t = some { s with oldSDA := b } := by
  cases s
  subst h
  rfl

theorem parse_sclFall (epoch t : Int) (s : I2CSniffer) (b : Nat)
    (h : s.oldSCL = 1) :
    parse epoch s 0 b t = some { s with oldSCL := 0, oldSDA := b } := by
  cases s
  subst h
  rfl

theorem parse_rise (epoch t : Int) (s : I2CSniffer) (b : Nat)
    (h : s.oldSCL = 0) :
    parse epoch s 1 b t = some (sampleBit b { s with oldSCL := 1, oldSDA := b }) := by
  cases s with
  | mk pk pc hist oscl osda v n =>
    subst h
    cases pc with
    | none => rfl
    | some pc0 =>
      simp only [parse, parseBody, sampleBit]
      split_ifs <;> simp_all [classifyLine, RISING, STEADY, FALLING]

theorem parse_start_new (epoch t : Int) (s : I2CSniffer)
    (h1 : s.oldSCL = 1) (h2 : s.oldSDA = 1) (hpk : s.packet = none) :
    parse epoch s 1 0 t =
      some { s with oldSDA := 0, packet := some (I2CPacket.create t epoch),
                    parcel := some {}, nbits := 0, value := 0 } := by
  cases s
  subst h1; subst h2; subst hpk
  rfl

theorem parse_start_rep (epoch t : Int) (s : I2CSniffer) (pk : I2CPacket)
    (pc : I2CParcel) (h1 : s.oldSCL = 1) (h2 : s.oldSDA = 1)
    (hpk : s.packet = some pk) (hpc : s.parcel = some pc) :
    parse epoch s 1 0 t =
      some { s with oldSDA := 0, packet := some (pk.addParcel pc),
                    parcel := some {}, nbits := 0, value := 0 } := by
  cases s
  subst h1; subst h2; subst hpk; subst hpc
  rfl

theorem parse_stop (epoch t : Int) (s : I2CSniffer) (pk : I2CPacket)
    (pc : I2CParcel) (h1 : s.oldSCL = 1) (h2 : s.oldSDA = 0)
    (hpk : s.packet = some pk) (hpc : s.parcel = some pc) :
    parse epoch s 1 1 t =
      some { s with oldSDA := 1, packet := none, parcel := none,
                    packetHistory := s.packetHistory ++ [pk.addParcel pc] } := by
  cases s
  subst h1; subst h2; subst hpk; subst hpc
  rfl

theorem sampleBit_levels (b x y : Nat) (s : I2CSniffer) :
    sampleBit b { s with oldSCL := x, oldSDA := y } =
      { sampleBit b s with oldSCL := x, oldSDA := y } := by
  cases s with
  | mk pk pc hist oscl osda v n =>
    cases pc with
    | none => rfl
    | some pc0 =>
      dsimp only [sampleBit]
      repeat' split
      all_goals rfl

theorem run_clockBit (epoch : Int) (s : I2CSniffer) (b : Nat)
    (h : s.oldSCL = 0) :
    runEvents epoch s (clockBit b) = some (bitstep b s) := by
  have h1 : parse epoch s 0 b 0 = some { s with oldSDA := b } :=
    parse_sclLow epoch 0 s b h
  have h2 : parse epoch { s with oldSDA := b } 1 b 0 =
      some (sampleBit b { s with oldSCL := 1, oldSDA := b }) := by
    have := parse_rise epoch 0 { s with oldSDA := b } b (by simpa using h)
    simpa using this
  have hlv : sampleBit b { s with oldSCL := 1, oldSDA := b } =
      { sampleBit b s with oldSCL := 1, oldSDA := b } := sampleBit_levels b 1 b s
  have h3 : parse epoch { sampleBit b s with oldSCL := 1, oldSDA := b } 0 b 0 =
      some { sampleBit b s with oldSCL := 0, oldSDA := b } := by
    have := parse_sclFall epoch 0 { sampleBit b s with oldSCL := 1, oldSDA := b } b rfl
    simpa using this
  simp only [clockBit, runEvents, h1, h2, hlv, h3, bitstep]

theorem runEvents_append (epoch : Int) (s : I2CSniffer) (l1 l2 : List Ev) :
    runEvents epoch s (l1 ++ l2) =
      (runEvents epoch s l1).bind (fun s2 => runEvents epoch s2 l2) := by
  induction l1 generalizing s with
  | nil => rfl
  | cons e es ih =>
    simp only [List.cons_append, runEvents]
    cases parse epoch s e.SCL e.SDA e.t with
    | none => rfl
    | some s2 => exact ih s2

theorem bitstep_oldSCL (b : Nat) (s : I2CSniffer) : (bitstep b s).oldSCL = 0 := rfl

theorem run_feedBits (epoch : Int) (s : I2CSniffer) (bs : List Nat)
    (h : s.oldSCL = 0) :
    runEvents epoch s (feedBits bs) =
      some (bs.foldl (fun st b => bitstep b st) s) := by
  induction bs generalizing s with
  | nil => simp [feedBits, runEvents]
  | cons b bs ih =>
    simp only [feedBits, runEvents_append, run_clockBit epoch s b h, Option.bind_some,
      List.foldl_cons]
    exact ih (bitstep b s) (bitstep_oldSCL b s)

/-!
Bit-accumulation arithmetic: the sampled-bit counter classification and
the relation between the shift-or accumulator of the source and the
encoded numeric value.
-/

theorem shiftLor (v b : Nat) (hb : b ≤ 1) : (v <<< 1) ||| b = 2 * v + b := by
  have hv : v <<< 1 = 2 * v := by rw [Nat.shiftLeft_eq]; ring
  rw [hv]
  interval_cases b
  · simp
  · apply Nat.eq_of_testBit_eq
    intro i
    rw [Nat.testBit_lor]
    cases i with
    | zero => simp [Nat.testBit_zero, Nat.mul_add_mod]
    | succ j => simp [Nat.testBit_succ, Nat.mul_add_div, Nat.mul_div_cancel_left]

theorem accBits_append (l1 l2 : List Nat) : ∀ v : Nat,
    accBits v (l1 ++ l2) = accBits (accBits v l1) l2 := by
  induction l1 with
  | nil => intro v; rfl
  | cons b bs ih => intro v; simp only [List.cons_append, accBits]; exact ih _

theorem bitsOf_length (w : Nat) : ∀ x : Nat, (bitsOf w x).length = w := by
  induction w with
  | zero => intro x; rfl
  | succ w ih => intro x; simp [bitsOf, ih]

theorem accBits_bitsOf (w : Nat) : ∀ x v : Nat, x < 2 ^ w →
    accBits v (bitsOf w x) = v * 2 ^ w + x := by
  induction w with
  | zero =>
    intro x v hx
    interval_cases x
    simp [bitsOf, accBits]
  | succ w ih =>
    intro x v hx
    have h2 : x / 2 < 2 ^ w := by
      rw [Nat.div_lt_iff_lt_mul (by norm_num)]
      calc x < 2 ^ (w + 1) := hx
        _ = 2 ^ w * 2 := by rw [pow_succ]
    rw [show bitsOf (w + 1) x = bitsOf w (x / 2) ++ [x % 2] from rfl]
    rw [accBits_append, ih (x / 2) v h2]
    show (((v * 2 ^ w + x / 2) <<< 1) ||| (x % 2)) = v * 2 ^ (w + 1) + x
    rw [shiftLor _ _ (by omega), pow_succ, ← mul_assoc]
    have hd := Nat.div_add_mod x 2
    set p := v * 2 ^ w
    omega

theorem bitstep_noemit (b : Nat) (s : I2CSniffer) (pc : I2CParcel)
    (hpc : s.parcel = some pc) (hne : ¬ emitsAt (s.nbits + 1)) :
    bitstep b s = { s with oldSCL := 0, oldSDA := b, nbits := s.nbits + 1,
                           value := (s.value <<< 1) ||| b } := by
  cases s with
  | mk pk pc0 hist oscl osda v n =>
    simp only [] at hpc
    subst hpc
    simp only [emitsAt, kOf, not_or, Nat.cast_add, Nat.cast_one] at hne
    obtain ⟨h7, h8, hk8, hk9⟩ := hne
    simp [bitstep, sampleBit, h7, h8, hk8, hk9]

theorem foldl_noemit (bs : List Nat) : ∀ (s : I2CSniffer) (pc : I2CParcel),
    s.parcel = some pc → s.oldSCL = 0 →
    (∀ i, i < bs.length → ¬ emitsAt (s.nbits + 1 + i)) →
    bs.foldl (fun st b => bitstep b st) s =
      { s with oldSDA := lastD s.oldSDA bs, value := accBits s.value bs,
               nbits := s.nbits + bs.length } := by
  induction bs with
  | nil =>
    intro s pc hpc hscl h
    simp [lastD, accBits]
  | cons b bs ih =>
    intro s pc hpc hscl h
    have h0 : ¬ emitsAt (s.nbits + 1) := by
      have := h 0 (by simp)
      simpa using this
    have hnext : ∀ i, i < bs.length → ¬ emitsAt (s.nbits + 1 + 1 + i) := by
      intro i hi
      have h2 := h (i + 1) (by simpa using hi)
      have h3 : s.nbits + 1 + (i + 1) = s.nbits + 1 + 1 + i := by omega
      rw [h3] at h2
      exact h2
    have hrw := ih { s with oldSCL := 0, oldSDA := b, nbits := s.nbits + 1, value := (s.value <<< 1) ||| b } pc hpc rfl hnext
    rw [List.foldl_cons, bitstep_noemit b s pc hpc h0, hrw]
    cases s with
    | mk pk pc0 hist oscl osda v n =>
      subst hscl
      simp [lastD, accBits]
      omega

theorem bitstep_addr (b : Nat) (s : I2CSniffer) (pc : I2CParcel)
    (hpc : s.parcel = some pc) (hn : s.nbits = 6) :
    bitstep b s = { s with oldSCL := 0, oldSDA := b, nbits := 7, value := 0,
                           parcel := some (pc.setAddress ((s.value <<< 1) ||| b)) } := by
  cases s with
  | mk pk pc0 hist oscl osda v n =>
    simp only [] at hpc hn
    subst hpc; subst hn
    simp [bitstep, sampleBit]

theorem bitstep_dir (b : Nat) (s : I2CSniffer) (pc : I2CParcel)
    (hpc : s.parcel = some pc) (hn : s.nbits = 7) :
    bitstep b s = { s with oldSCL := 0, oldSDA := b, nbits := 8, value := 0,
                           parcel := some (pc.setIsRead (((s.value <<< 1) ||| b) == 1)) } := by
  cases s with
  | mk pk pc0 hist oscl osda v n =>
    simp only [] at hpc hn
    subst hpc; subst hn
    simp [bitstep, sampleBit]

theorem bitstep_data (b : Nat) (s : I2CSniffer) (pc : I2CParcel)
    (hpc : s.parcel = some pc) (h7 : s.nbits + 1 ≠ 7) (h8 : s.nbits + 1 ≠ 8)
    (hk : kOf (s.nbits + 1) = 8) :
    bitstep b s = { s with oldSCL := 0, oldSDA := b, nbits := s.nbits + 1, value := 0,
                           parcel := some (pc.addDataByte ((s.value <<< 1) ||| b)) } := by
  cases s with
  | mk pk pc0 hist oscl osda v n =>
    simp only [] at hpc h7 h8 hk
    subst hpc
    simp only [kOf, Nat.cast_add, Nat.cast_one] at hk
    simp [bitstep, sampleBit, h7, h8, hk]

theorem bitstep_ack (b : Nat) (s : I2CSniffer) (pc : I2CParcel)
    (hpc : s.parcel = some pc) (h7 : s.nbits + 1 ≠ 7) (h8 : s.nbits + 1 ≠ 8)
    (hk8 : ¬ kOf (s.nbits + 1) = 8) (hk9 : kOf (s.nbits + 1) = 9) :
    bitstep b s = { s with oldSCL := 0, oldSDA := b, nbits := s.nbits + 1,
                           value := 0 } := by
  cases s with
  | mk pk pc0 hist oscl osda v n =>
    simp only [] at hpc h7 h8 hk8 hk9
    subst hpc
    simp only [kOf, Nat.cast_add, Nat.cast_one] at hk8 hk9
    simp [bitstep, sampleBit, h7, h8, hk8, hk9]

theorem foldl_addr (A : Nat) (hA : A < 128) (pk : Option I2CPacket)
    (pc : I2CParcel) (hist : List I2CPacket) (d : Nat) :
    (bitsOf 7 A).foldl (fun st b => bitstep b st)
      { packet := pk, parcel := some pc, packetHistory := hist,
        oldSCL := 0, oldSDA := d, value := 0, nbits := 0 } =
      { packet := pk, parcel := some (pc.setAddress A), packetHistory := hist,
        oldSCL := 0, oldSDA := A % 2, value := 0, nbits := 7 } := by
  have hno : ∀ i, i < (bitsOf 6 (A / 2)).length → ¬ emitsAt (0 + 1 + i) := by
    intro i hi
    rw [bitsOf_length] at hi
    simp only [emitsAt, kOf]
    push_cast
    omega
  rw [show bitsOf 7 A = bitsOf 6 (A / 2) ++ [A % 2] from rfl, List.foldl_append]
  rw [foldl_noemit (bitsOf 6 (A / 2)) _ pc rfl rfl hno]
  rw [List.foldl_cons, List.foldl_nil]
  rw [bitstep_addr (A % 2) _ pc rfl (by simp [bitsOf_length])]
  have hacc : accBits 0 (bitsOf 6 (A / 2)) = A / 2 := by
    have h6 := accBits_bitsOf 6 (A / 2) 0 (by omega)
    simpa using h6
  have hval : ((A / 2) <<< 1) ||| (A % 2) = A := by
    rw [shiftLor _ _ (by omega)]
    omega
  simp [hacc, hval]

theorem foldl_byte (x n0 : Nat) (hx : x < 256) (pk : Option I2CPacket)
    (pc : I2CParcel) (hist : List I2CPacket) (d : Nat)
    (hno : ∀ i, i < 7 → ¬ emitsAt (n0 + 1 + i))
    (h8 : n0 + 8 ≠ 8) (hk : kOf (n0 + 8) = 8) :
    (bitsOf 8 x).foldl (fun st b => bitstep b st)
      { packet := pk, parcel := some pc, packetHistory := hist,
        oldSCL := 0, oldSDA := d, value := 0, nbits := n0 } =
      { packet := pk, parcel := some (pc.addDataByte x), packetHistory := hist,
        oldSCL := 0, oldSDA := x % 2, value := 0, nbits := n0 + 8 } := by
  have hno2 : ∀ i, i < (bitsOf 7 (x / 2)).length → ¬ emitsAt (n0 + 1 + i) := by
    intro i hi
    rw [bitsOf_length] at hi
    exact hno i hi
  rw [show bitsOf 8 x = bitsOf 7 (x / 2) ++ [x % 2] from rfl, List.foldl_append]
  rw [foldl_noemit (bitsOf 7 (x / 2)) _ pc rfl rfl hno2]
  rw [List.foldl_cons, List.foldl_nil]
  rw [bitstep_data (x % 2) _ pc rfl
    (by simp only [bitsOf_length]; omega)
    (by simp only [bitsOf_length]; omega)
    (by
      simp only [bitsOf_length]
      simp only [kOf] at hk ⊢
      push_cast at hk ⊢
      omega)]
  have hacc : accBits 0 (bitsOf 7 (x / 2)) = x / 2 := by
    have h7a := accBits_bitsOf 7 (x / 2) 0 (by omega)
    simpa using h7a
  have hval : ((x / 2) <<< 1) ||| (x % 2) = x := by
    rw [shiftLor _ _ (by omega)]
    omega
  simp [hacc, hval, bitsOf_length]

theorem runEvents_cons_of (epoch : Int) (s s2 : I2CSniffer) (SCL SDA : Nat)
    (t : Int) (es : List Ev) (h : parse epoch s SCL SDA t = some s2) :
    runEvents epoch s (⟨SCL, SDA, t⟩ :: es) = runEvents epoch s2 es := by
  simp only [runEvents, h]

theorem run_txWrite (epoch tS tE : Int) (A B1 B2 : Nat)
    (hA : A < 128) (hB1 : B1 < 256) (hB2 : B2 < 256) :
    runEvents epoch initSniffer (txWrite A B1 B2 tS tE) =
      some ⟨none, none, [⟨tS - epoch, [⟨A, false, [B1, B2]⟩]⟩], 1, 1, 0, 28⟩ := by
  have h1 : parse epoch initSniffer 1 0 tS =
      some ⟨some (I2CPacket.create tS epoch), some ⟨0, true, []⟩, [], 1, 0, 0, 0⟩ :=
    parse_start_new epoch tS initSniffer rfl rfl rfl
  have h2 : parse epoch (⟨some (I2CPacket.create tS epoch), some ⟨0, true, []⟩, [], 1, 0, 0, 0⟩ : I2CSniffer) 0 0 0 =
      some ⟨some (I2CPacket.create tS epoch), some ⟨0, true, []⟩, [], 0, 0, 0, 0⟩ :=
    parse_sclFall epoch 0 _ 0 rfl
  have ha : (bitsOf 7 A).foldl (fun st b => bitstep b st)
        (⟨some (I2CPacket.create tS epoch), some ⟨0, true, []⟩, [], 0, 0, 0, 0⟩ : I2CSniffer) =
      ⟨some (I2CPacket.create tS epoch), some (I2CParcel.setAddress ⟨0, true, []⟩ A), [], 0, A % 2, 0, 7⟩ :=
    foldl_addr A hA (some (I2CPacket.create tS epoch)) ⟨0, true, []⟩ [] 0
  have hd : bitstep 0 (⟨some (I2CPacket.create tS epoch), some (I2CParcel.setAddress ⟨0, true, []⟩ A), [], 0, A % 2, 0, 7⟩ : I2CSniffer) =
      ⟨some (I2CPacket.create tS epoch), some (I2CParcel.setIsRead (I2CParcel.setAddress ⟨0, true, []⟩ A) false), [], 0, 0, 0, 8⟩ :=
    by rw [bitstep_dir 0 _ (I2CParcel.setAddress ⟨0, true, []⟩ A) rfl rfl]; simp
  have hk1 : bitstep 0 (⟨some (I2CPacket.create tS epoch), some (I2CParcel.setIsRead (I2CParcel.setAddress ⟨0, true, []⟩ A) false), [], 0, 0, 0, 8⟩ : I2CSniffer) =
      ⟨some (I2CPacket.create tS epoch), some (I2CParcel.setIsRead (I2CParcel.setAddress ⟨0, true, []⟩ A) false), [], 0, 0, 0, 9⟩ :=
    bitstep_ack 0 _ (I2CParcel.setIsRead (I2CParcel.setAddress ⟨0, true, []⟩ A) false) rfl (by simp) (by simp) (by simp [kOf]) (by simp [kOf])
  have hb1 : (bitsOf 8 B1).foldl (fun st b => bitstep b st)
        (⟨some (I2CPacket.create tS epoch), some (I2CParcel.setIsRead (I2CParcel.setAddress ⟨0, true, []⟩ A) false), [], 0, 0, 0, 9⟩ : I2CSniffer) =
      ⟨some (I2CPacket.create tS epoch), some (I2CParcel.addDataByte (I2CParcel.setIsRead (I2CParcel.setAddress ⟨0, true, []⟩ A) false) B1), [], 0, B1 % 2, 0, 17⟩ :=
    foldl_byte B1 9 hB1 (some (I2CPacket.create tS epoch)) (I2CParcel.setIsRead (I2CParcel.setAddress ⟨0, true, []⟩ A) false) [] 0
      (by intro i hi; simp only [emitsAt, kOf]; push_cast; omega) (by decide) (by decide)
  have hk2 : bitstep 0 (⟨some (I2CPacket.create tS epoch), some (I2CParcel.addDataByte (I2CParcel.setIsRead (I2CParcel.setAddress ⟨0, true, []⟩ A) false) B1), [], 0, B1 % 2, 0, 17⟩ : I2CSniffer) =
      ⟨some (I2CPacket.create tS epoch), some (I2CParcel.addDataByte (I2CParcel.setIsRead (I2CParcel.setAddress ⟨0, true, []⟩ A) false) B1), [], 0, 0, 0, 18⟩ :=
    bitstep_ack 0 _ (I2CParcel.addDataByte (I2CParcel.setIsRead (I2CParcel.setAddress ⟨0, true, []⟩ A) false) B1) rfl (by simp) (by simp) (by simp [kOf]) (by simp [kOf])
  have hb2 : (bitsOf 8 B2).foldl (fun st b => bitstep b st)
        (⟨some (I2CPacket.create tS epoch), some (I2CParcel.addDataByte (I2CParcel.setIsRead (I2CParcel.setAddress ⟨0, true, []⟩ A) false) B1), [], 0, 0, 0, 18⟩ : I2CSniffer) =
      ⟨some (I2CPacket.create tS epoch), some (I2CParcel.addDataByte (I2CParcel.addDataByte (I2CParcel.setIsRead (I2CParcel.setAddress ⟨0, true, []⟩ A) false) B1) B2), [], 0, B2 % 2, 0, 26⟩ :=
    foldl_byte B2 18 hB2 (some (I2CPacket.create tS epoch)) (I2CParcel.addDataByte (I2CParcel.setIsRead (I2CParcel.setAddress ⟨0, true, []⟩ A) false) B1) [] 0
      (by intro i hi; simp only [emitsAt, kOf]; push_cast; omega) (by decide) (by decide)
  have hk3 : bitstep 0 (⟨some (I2CPacket.create tS epoch), some (I2CParcel.addDataByte (I2CParcel.addDataByte (I2CParcel.setIsRead (I2CParcel.setAddress ⟨0, true, []⟩ A) false) B1) B2), [], 0, B2 % 2, 0, 26⟩ : I2CSniffer) =
      ⟨some (I2CPacket.create tS epoch), some (I2CParcel.addDataByte (I2CParcel.addDataByte (I2CParcel.setIsRead (I2CParcel.setAddress ⟨0, true, []⟩ A) false) B1) B2), [], 0, 0, 0, 27⟩ :=
    bitstep_ack 0 _ (I2CParcel.addDataByte (I2CParcel.addDataByte (I2CParcel.setIsRead (I2CParcel.setAddress ⟨0, true, []⟩ A) false) B1) B2) rfl (by simp) (by simp) (by simp [kOf]) (by simp [kOf])
  have h3 : parse epoch (⟨some (I2CPacket.create tS epoch), some (I2CParcel.addDataByte (I2CParcel.addDataByte (I2CParcel.setIsRead (I2CParcel.setAddress ⟨0, true, []⟩ A) false) B1) B2), [], 0, 0, 0, 27⟩ : I2CSniffer) 1 0 0 =
      some ⟨some (I2CPacket.create tS epoch), some (I2CParcel.addDataByte (I2CParcel.addDataByte (I2CParcel.setIsRead (I2CParcel.setAddress ⟨0, true, []⟩ A) false) B1) B2), [], 1, 0, 0, 28⟩ :=
    by rw [parse_rise epoch 0 _ 0 rfl]; simp [sampleBit]
  have h4 : parse epoch (⟨some (I2CPacket.create tS epoch), some (I2CParcel.addDataByte (I2CParcel.addDataByte (I2CParcel.setIsRead (I2CParcel.setAddress ⟨0, true, []⟩ A) false) B1) B2), [], 1, 0, 0, 28⟩ : I2CSniffer) 1 1 tE =
      some ⟨none, none, [(I2CPacket.create tS epoch).addParcel (I2CParcel.addDataByte (I2CParcel.addDataByte (I2CParcel.setIsRead (I2CParcel.setAddress ⟨0, true, []⟩ A) false) B1) B2)], 1, 1, 0, 28⟩ :=
    parse_stop epoch tE _ (I2CPacket.create tS epoch) (I2CParcel.addDataByte (I2CParcel.addDataByte (I2CParcel.setIsRead (I2CParcel.setAddress ⟨0, true, []⟩ A) false) B1) B2) rfl rfl rfl rfl
  simp only [txWrite]
  rw [runEvents_cons_of _ _ _ _ _ _ _ h1]
  rw [runEvents_cons_of _ _ _ _ _ _ _ h2]
  rw [runEvents_append]
  rw [run_feedBits epoch (⟨some (I2CPacket.create tS epoch), some ⟨0, true, []⟩, [], 0, 0, 0, 0⟩ : I2CSniffer) (writeBits A B1 B2) rfl]
  simp only [Option.some_bind]
  simp only [writeBits, List.foldl_append, List.foldl_cons, List.foldl_nil]
  rw [ha, hd, hk1, hb1, hk2, hb2, hk3]
  rw [runEvents_cons_of _ _ _ _ _ _ _ h3]
  rw [runEvents_cons_of _ _ _ _ _ _ _ h4]
  simp [runEvents, I2CPacket.create, I2CPacket.addParcel, I2CParcel.setAddress,
    I2CParcel.setIsRead, I2CParcel.addDataByte]

theorem run_txRead (epoch tS tE : Int) (A reg D1 D2 : Nat)
    (hA : A < 128) (hreg : reg < 256) (hD1 : D1 < 256) (hD2 : D2 < 256) :
    runEvents epoch initSniffer (txRead A reg D1 D2 tS tE) =
      some ⟨none, none, [⟨tS - epoch, [⟨A, false, [reg]⟩, ⟨A, true, [D1, D2]⟩]⟩], 1, 1, 0, 28⟩ := by
  have h1 : parse epoch initSniffer 1 0 tS =
      some (⟨some (I2CPacket.create tS epoch), some ⟨0, true, []⟩, [], 1, 0, 0, 0⟩ : I2CSniffer) :=
    parse_start_new epoch tS initSniffer rfl rfl rfl
  have h2 : parse epoch (⟨some (I2CPacket.create tS epoch), some ⟨0, true, []⟩, [], 1, 0, 0, 0⟩ : I2CSniffer) 0 0 0 =
      some (⟨some (I2CPacket.create tS epoch), some ⟨0, true, []⟩, [], 0, 0, 0, 0⟩ : I2CSniffer) :=
    parse_sclFall epoch 0 _ 0 rfl
  have ha : (bitsOf 7 A).foldl (fun st b => bitstep b st)
        (⟨some (I2CPacket.create tS epoch), some ⟨0, true, []⟩, [], 0, 0, 0, 0⟩ : I2CSniffer) =
      (⟨some (I2CPacket.create tS epoch), some (I2CParcel.setAddress ⟨0, true, []⟩ A), [], 0, A % 2, 0, 7⟩ : I2CSniffer) :=
    foldl_addr A hA (some (I2CPacket.create tS epoch)) ⟨0, true, []⟩ [] 0
  have hd : bitstep 0 (⟨some (I2CPacket.create tS epoch), some (I2CParcel.setAddress ⟨0, true, []⟩ A), [], 0, A % 2, 0, 7⟩ : I2CSniffer) =
      (⟨some (I2CPacket.create tS epoch), some (I2CParcel.setIsRead (I2CParcel.setAddress ⟨0, true, []⟩ A) false), [], 0, 0, 0, 8⟩ : I2CSniffer) := by
    rw [bitstep_dir 0 _ (I2CParcel.setAddress ⟨0, true, []⟩ A) rfl rfl]; simp
  have hk1 : bitstep 0 (⟨some (I2CPacket.create tS epoch), some (I2CParcel.setIsRead (I2CParcel.setAddress ⟨0, true, []⟩ A) false), [], 0, 0, 0, 8⟩ : I2CSniffer) =
      (⟨some (I2CPacket.create tS epoch), some (I2CParcel.setIsRead (I2CParcel.setAddress ⟨0, true, []⟩ A) false), [], 0, 0, 0, 9⟩ : I2CSniffer) :=
    bitstep_ack 0 (⟨some (I2CPacket.create tS epoch), some (I2CParcel.setIsRead (I2CParcel.setAddress ⟨0, true, []⟩ A) false), [], 0, 0, 0, 8⟩ : I2CSniffer) (I2CParcel.setIsRead (I2CParcel.setAddress ⟨0, true, []⟩ A) false) rfl (by simp) (by simp) (by simp [kOf]) (by simp [kOf])
  have hbreg : (bitsOf 8 reg).foldl (fun st b => bitstep b st)
        (⟨some (I2CPacket.create tS epoch), some (I2CParcel.setIsRead (I2CParcel.setAddress ⟨0, true, []⟩ A) false), [], 0, 0, 0, 9⟩ : I2CSniffer) =
      (⟨some (I2CPacket.create tS epoch), some (I2CParcel.addDataByte (I2CParcel.setIsRead (I2CParcel.setAddress ⟨0, true, []⟩ A) false) reg), [], 0, reg % 2, 0, 17⟩ : I2CSniffer) :=
    foldl_byte reg 9 hreg (some (I2CPacket.create tS epoch)) (I2CParcel.setIsRead (I2CParcel.setAddress ⟨0, true, []⟩ A) false) [] 0
      (by intro i hi; simp only [emitsAt, kOf]; push_cast; omega) (by decide) (by decide)
  have hk2 : bitstep 0 (⟨some (I2CPacket.create tS epoch), some (I2CParcel.addDataByte (I2CParcel.setIsRead (I2CParcel.setAddress ⟨0, true, []⟩ A) false) reg), [], 0, reg % 2, 0, 17⟩ : I2CSniffer) =
      (⟨some (I2CPacket.create tS epoch), some (I2CParcel.addDataByte (I2CParcel.setIsRead (I2CParcel.setAddress ⟨0, true, []⟩ A) false) reg), [], 0, 0, 0, 18⟩ : I2CSniffer) :=
    bitstep_ack 0 (⟨some (I2CPacket.create tS epoch), some (I2CParcel.addDataByte (I2CParcel.setIsRead (I2CParcel.setAddress ⟨0, true, []⟩ A) false) reg), [], 0, reg % 2, 0, 17⟩ : I2CSniffer) (I2CParcel.addDataByte (I2CParcel.setIsRead (I2CParcel.setAddress ⟨0, true, []⟩ A) false) reg) rfl (by simp) (by simp) (by simp [kOf]) (by simp [kOf])
  have hlw : parse epoch (⟨some (I2CPacket.create tS epoch), some (I2CParcel.addDataByte (I2CParcel.setIsRead (I2CParcel.setAddress ⟨0, true, []⟩ A) false) reg), [], 0, 0, 0, 18⟩ : I2CSniffer) 0 1 0 =
      some (⟨some (I2CPacket.create tS epoch), some (I2CParcel.addDataByte (I2CParcel.setIsRead (I2CParcel.setAddress ⟨0, true, []⟩ A) false) reg), [], 0, 1, 0, 18⟩ : I2CSniffer) :=
    parse_sclLow epoch 0 _ 1 rfl
  have hr19 : parse epoch (⟨some (I2CPacket.create tS epoch), some (I2CParcel.addDataByte (I2CParcel.setIsRead (I2CParcel.setAddress ⟨0, true, []⟩ A) false) reg), [], 0, 1, 0, 18⟩ : I2CSniffer) 1 1 0 =
      some (⟨some (I2CPacket.create tS epoch), some (I2CParcel.addDataByte (I2CParcel.setIsRead (I2CParcel.setAddress ⟨0, true, []⟩ A) false) reg), [], 1, 1, 1, 19⟩ : I2CSniffer) := by
    rw [parse_rise epoch 0 _ 1 rfl]; simp [sampleBit, kOf]
  have hrs : parse epoch (⟨some (I2CPacket.create tS epoch), some (I2CParcel.addDataByte (I2CParcel.setIsRead (I2CParcel.setAddress ⟨0, true, []⟩ A) false) reg), [], 1, 1, 1, 19⟩ : I2CSniffer) 1 0 0 =
      some (⟨some ((I2CPacket.create tS epoch).addParcel (I2CParcel.addDataByte (I2CParcel.setIsRead (I2CParcel.setAddress ⟨0, true, []⟩ A) false) reg)), some ⟨0, true, []⟩, [], 1, 0, 0, 0⟩ : I2CSniffer) :=
    parse_start_rep epoch 0 _ (I2CPacket.create tS epoch) (I2CParcel.addDataByte (I2CParcel.setIsRead (I2CParcel.setAddress ⟨0, true, []⟩ A) false) reg) rfl rfl rfl rfl
  have hf2 : parse epoch (⟨some ((I2CPacket.create tS epoch).addParcel (I2CParcel.addDataByte (I2CParcel.setIsRead (I2CParcel.setAddress ⟨0, true, []⟩ A) false) reg)), some ⟨0, true, []⟩, [], 1, 0, 0, 0⟩ : I2CSniffer) 0 0 0 =
      some (⟨some ((I2CPacket.create tS epoch).addParcel (I2CParcel.addDataByte (I2CParcel.setIsRead (I2CParcel.setAddress ⟨0, true, []⟩ A) false) reg)), some ⟨0, true, []⟩, [], 0, 0, 0, 0⟩ : I2CSniffer) :=
    parse_sclFall epoch 0 _ 0 rfl
  have ha2 : (bitsOf 7 A).foldl (fun st b => bitstep b st)
        (⟨some ((I2CPacket.create tS epoch).addParcel (I2CParcel.addDataByte (I2CParcel.setIsRead (I2CParcel.setAddress ⟨0, true, []⟩ A) false) reg)), some ⟨0, true, []⟩, [], 0, 0, 0, 0⟩ : I2CSniffer) =
      (⟨some ((I2CPacket.create tS epoch).addParcel (I2CParcel.addDataByte (I2CParcel.setIsRead (I2CParcel.setAddress ⟨0, true, []⟩ A) false) reg)), some (I2CParcel.setAddress ⟨0, true, []⟩ A), [], 0, A % 2, 0, 7⟩ : I2CSniffer) :=
    foldl_addr A hA (some ((I2CPacket.create tS epoch).addParcel (I2CParcel.addDataByte (I2CParcel.setIsRead (I2CParcel.setAddress ⟨0, true, []⟩ A) false) reg))) ⟨0, true, []⟩ [] 0
  have hd2 : bitstep 1 (⟨some ((I2CPacket.create tS epoch).addParcel (I2CParcel.addDataByte (I2CParcel.setIsRead (I2CParcel.setAddress ⟨0, true, []⟩ A) false) reg)), some (I2CParcel.setAddress ⟨0, true, []⟩ A), [], 0, A % 2, 0, 7⟩ : I2CSniffer) =
      (⟨some ((I2CPacket.create tS epoch).addParcel (I2CParcel.addDataByte (I2CParcel.setIsRead (I2CParcel.setAddress ⟨0, true, []⟩ A) false) reg)), some (I2CParcel.setIsRead (I2CParcel.setAddress ⟨0, true, []⟩ A) true), [], 0, 1, 0, 8⟩ : I2CSniffer) := by
    rw [bitstep_dir 1 _ (I2CParcel.setAddress ⟨0, true, []⟩ A) rfl rfl]; simp
  have hk3 : bitstep 0 (⟨some ((I2CPacket.create tS epoch).addParcel (I2CParcel.addDataByte (I2CParcel.setIsRead (I2CParcel.setAddress ⟨0, true, []⟩ A) false) reg)), some (I2CParcel.setIsRead (I2CParcel.setAddress ⟨0, true, []⟩ A) true), [], 0, 1, 0, 8⟩ : I2CSniffer) =
      (⟨some ((I2CPacket.create tS epoch).addParcel (I2CParcel.addDataByte (I2CParcel.setIsRead (I2CParcel.setAddress ⟨0, true, []⟩ A) false) reg)), some (I2CParcel.setIsRead (I2CParcel.setAddress ⟨0, true, []⟩ A) true), [], 0, 0, 0, 9⟩ : I2CSniffer) :=
    bitstep_ack 0 (⟨some ((I2CPacket.create tS epoch).addParcel (I2CParcel.addDataByte (I2CParcel.setIsRead (I2CParcel.setAddress ⟨0, true, []⟩ A) false) reg)), some (I2CParcel.setIsRead (I2CParcel.setAddress ⟨0, true, []⟩ A) true), [], 0, 1, 0, 8⟩ : I2CSniffer) (I2CParcel.setIsRead (I2CParcel.setAddress ⟨0, true, []⟩ A) true) rfl (by simp) (by simp) (by simp [kOf]) (by simp [kOf])
  have hbD1 : (bitsOf 8 D1).foldl (fun st b => bitstep b st)
        (⟨some ((I2CPacket.create tS epoch).addParcel (I2CParcel.addDataByte (I2CParcel.setIsRead (I2CParcel.setAddress ⟨0, true, []⟩ A) false) reg)), some (I2CParcel.setIsRead (I2CParcel.setAddress ⟨0, true, []⟩ A) true), [], 0, 0, 0, 9⟩ : I2CSniffer) =
      (⟨some ((I2CPacket.create tS epoch).addParcel (I2CParcel.addDataByte (I2CParcel.setIsRead (I2CParcel.setAddress ⟨0, true, []⟩ A) false) reg)), some (I2CParcel.addDataByte (I2CParcel.setIsRead (I2CParcel.setAddress ⟨0, true, []⟩ A) true) D1), [], 0, D1 % 2, 0, 17⟩ : I2CSniffer) :=
    foldl_byte D1 9 hD1 (some ((I2CPacket.create tS epoch).addParcel (I2CParcel.addDataByte (I2CParcel.setIsRead (I2CParcel.setAddress ⟨0, true, []⟩ A) false) reg))) (I2CParcel.setIsRead (I2CParcel.setAddress ⟨0, true, []⟩ A) true) [] 0
      (by intro i hi; simp only [emitsAt, kOf]; push_cast; omega) (by decide) (by decide)
  have hk4 : bitstep 0 (⟨some ((I2CPacket.create tS epoch).addParcel (I2CParcel.addDataByte (I2CParcel.setIsRead (I2CParcel.setAddress ⟨0, true, []⟩ A) false) reg)), some (I2CParcel.addDataByte (I2CParcel.setIsRead (I2CParcel.setAddress ⟨0, true, []⟩ A) true) D1), [], 0, D1 % 2, 0, 17⟩ : I2CSniffer) =
      (⟨some ((I2CPacket.create tS epoch).addParcel (I2CParcel.addDataByte (I2CParcel.setIsRead (I2CParcel.setAddress ⟨0, true, []⟩ A) false) reg)), some (I2CParcel.addDataByte (I2CParcel.setIsRead (I2CParcel.setAddress ⟨0, true, []⟩ A) true) D1), [], 0, 0, 0, 18⟩ : I2CSniffer) :=
    bitstep_ack 0 (⟨some ((I2CPacket.create tS epoch).addParcel (I2CParcel.addDataByte (I2CParcel.setIsRead (I2CParcel.setAddress ⟨0, true, []⟩ A) false) reg)), some (I2CParcel.addDataByte (I2CParcel.setIsRead (I2CParcel.setAddress ⟨0, true, []⟩ A) true) D1), [], 0, D1 % 2, 0, 17⟩ : I2CSniffer) (I2CParcel.addDataByte (I2CParcel.setIsRead (I2CParcel.setAddress ⟨0, true, []⟩ A) true) D1) rfl (by simp) (by simp) (by simp [kOf]) (by simp [kOf])
  have hbD2 : (bitsOf 8 D2).foldl (fun st b => bitstep b st)
        (⟨some ((I2CPacket.create tS epoch).addParcel (I2CParcel.addDataByte (I2CParcel.setIsRead (I2CParcel.setAddress ⟨0, true, []⟩ A) false) reg)), some (I2CParcel.addDataByte (I2CParcel.setIsRead (I2CParcel.setAddress ⟨0, true, []⟩ A) true) D1), [], 0, 0, 0, 18⟩ : I2CSniffer) =
      (⟨some ((I2CPacket.create tS epoch).addParcel (I2CParcel.addDataByte (I2CParcel.setIsRead (I2CParcel.setAddress ⟨0, true, []⟩ A) false) reg)), some (I2CParcel.addDataByte (I2CParcel.addDataByte (I2CParcel.setIsRead (I2CParcel.setAddress ⟨0, true, []⟩ A) true) D1) D2), [], 0, D2 % 2, 0, 26⟩ : I2CSniffer) :=
    foldl_byte D2 18 hD2 (some ((I2CPacket.create tS epoch).addParcel (I2CParcel.addDataByte (I2CParcel.setIsRead (I2CParcel.setAddress ⟨0, true, []⟩ A) false) reg))) (I2CParcel.addDataByte (I2CParcel.setIsRead (I2CParcel.setAddress ⟨0, true, []⟩ A) true) D1) [] 0
      (by intro i hi; simp only [emitsAt, kOf]; push_cast; omega) (by decide) (by decide)
  have hk5 : bitstep 0 (⟨some ((I2CPacket.create tS epoch).addParcel (I2CParcel.addDataByte (I2CParcel.setIsRead (I2CParcel.setAddress ⟨0, true, []⟩ A) false) reg)), some (I2CParcel.addDataByte (I2CParcel.addDataByte (I2CParcel.setIsRead (I2CParcel.setAddress ⟨0, true, []⟩ A) true) D1) D2), [], 0, D2 % 2, 0, 26⟩ : I2CSniffer) =
      (⟨some ((I2CPacket.create tS epoch).addParcel (I2CParcel.addDataByte (I2CParcel.setIsRead (I2CParcel.setAddress ⟨0, true, []⟩ A) false) reg)), some (I2CParcel.addDataByte (I2CParcel.addDataByte (I2CParcel.setIsRead (I2CParcel.setAddress ⟨0, true, []⟩ A) true) D1) D2), [], 0, 0, 0, 27⟩ : I2CSniffer) :=
    bitstep_ack 0 (⟨some ((I2CPacket.create tS epoch).addParcel (I2CParcel.addDataByte (I2CParcel.setIsRead (I2CParcel.setAddress ⟨0, true, []⟩ A) false) reg)), some (I2CParcel.addDataByte (I2CParcel.addDataByte (I2CParcel.setIsRead (I2CParcel.setAddress ⟨0, true, []⟩ A) true) D1) D2), [], 0, D2 % 2, 0, 26⟩ : I2CSniffer) (I2CParcel.addDataByte (I2CParcel.addDataByte (I2CParcel.setIsRead (I2CParcel.setAddress ⟨0, true, []⟩ A) true) D1) D2) rfl (by simp) (by simp) (by simp [kOf]) (by simp [kOf])
  have h3 : parse epoch (⟨some ((I2CPacket.create tS epoch).addParcel (I2CParcel.addDataByte (I2CParcel.setIsRead (I2CParcel.setAddress ⟨0, true, []⟩ A) false) reg)), some (I2CParcel.addDataByte (I2CParcel.addDataByte (I2CParcel.setIsRead (I2CParcel.setAddress ⟨0, true, []⟩ A) true) D1) D2), [], 0, 0, 0, 27⟩ : I2CSniffer) 1 0 0 =
      some (⟨some ((I2CPacket.create tS epoch).addParcel (I2CParcel.addDataByte (I2CParcel.setIsRead (I2CParcel.setAddress ⟨0, true, []⟩ A) false) reg)), some (I2CParcel.addDataByte (I2CParcel.addDataByte (I2CParcel.setIsRead (I2CParcel.setAddress ⟨0, true, []⟩ A) true) D1) D2), [], 1, 0, 0, 28⟩ : I2CSniffer) := by
    rw [parse_rise epoch 0 _ 0 rfl]; simp [sampleBit]
  have h4 : parse epoch (⟨some ((I2CPacket.create tS epoch).addParcel (I2CParcel.addDataByte (I2CParcel.setIsRead (I2CParcel.setAddress ⟨0, true, []⟩ A) false) reg)), some (I2CParcel.addDataByte (I2CParcel.addDataByte (I2CParcel.setIsRead (I2CParcel.setAddress ⟨0, true, []⟩ A) true) D1) D2), [], 1, 0, 0, 28⟩ : I2CSniffer) 1 1 tE =
      some (⟨none, none, [((I2CPacket.create tS epoch).addParcel (I2CParcel.addDataByte (I2CParcel.setIsRead (I2CParcel.setAddress ⟨0, true, []⟩ A) false) reg)).addParcel (I2CParcel.addDataByte (I2CParcel.addDataByte (I2CParcel.setIsRead (I2CParcel.setAddress ⟨0, true, []⟩ A) true) D1) D2)], 1, 1, 0, 28⟩ : I2CSniffer) :=
    parse_stop epoch tE _ ((I2CPacket.create tS epoch).addParcel (I2CParcel.addDataByte (I2CParcel.setIsRead (I2CParcel.setAddress ⟨0, true, []⟩ A) false) reg)) (I2CParcel.addDataByte (I2CParcel.addDataByte (I2CParcel.setIsRead (I2CParcel.setAddress ⟨0, true, []⟩ A) true) D1) D2) rfl rfl rfl rfl
  simp only [txRead, readBits]
  rw [runEvents_cons_of _ _ _ _ _ _ _ h1]
  rw [runEvents_cons_of _ _ _ _ _ _ _ h2]
  rw [runEvents_append]
  rw [run_feedBits epoch (⟨some (I2CPacket.create tS epoch), some ⟨0, true, []⟩, [], 0, 0, 0, 0⟩ : I2CSniffer) (bitsOf 7 A ++ [0] ++ [0] ++ bitsOf 8 reg ++ [0]) rfl]
  simp only [Option.some_bind]
  simp only [List.foldl_append, List.foldl_cons, List.foldl_nil]
  rw [ha, hd, hk1, hbreg, hk2]
  rw [runEvents_cons_of _ _ _ _ _ _ _ hlw]
  rw [runEvents_cons_of _ _ _ _ _ _ _ hr19]
  rw [runEvents_cons_of _ _ _ _ _ _ _ hrs]
  rw [runEvents_cons_of _ _ _ _ _ _ _ hf2]
  rw [runEvents_append]
  rw [run_feedBits epoch (⟨some ((I2CPacket.create tS epoch).addParcel (I2CParcel.addDataByte (I2CParcel.setIsRead (I2CParcel.setAddress ⟨0, true, []⟩ A) false) reg)), some ⟨0, true, []⟩, [], 0, 0, 0, 0⟩ : I2CSniffer) (bitsOf 7 A ++ [1] ++ [0] ++ bitsOf 8 D1 ++ [0] ++ bitsOf 8 D2 ++ [0]) rfl]
  simp only [Option.some_bind]
  simp only [List.foldl_append, List.foldl_cons, List.foldl_nil]
  rw [ha2, hd2, hk3, hbD1, hk4, hbD2, hk5]
  rw [runEvents_cons_of _ _ _ _ _ _ _ h3]
  rw [runEvents_cons_of _ _ _ _ _ _ _ h4]
  simp [runEvents, I2CPacket.create, I2CPacket.addParcel, I2CParcel.setAddress,
    I2CParcel.setIsRead, I2CParcel.addDataByte]

/-- Claim C2: feeding the decoder the edge-event sequence encoding START,
address A, direction WRITE, byte B1 (acked), byte B2 (acked), STOP
produces exactly one completed Packet containing exactly one Parcel whose
address is A, direction WRITE, data [B1, B2], and isWritePacket on that
Packet returns true. -/
theorem claimC2_write_transaction (epoch tS tE : Int) (A B1 B2 : Nat)
    (hA : A < 128) (hB1 : B1 < 256) (hB2 : B2 < 256) :
    ∃ s : I2CSniffer, runEvents epoch initSniffer (txWrite A B1 B2 tS tE) = some s ∧
      s.packetHistory = [⟨tS - epoch, [⟨A, false, [B1, B2]⟩]⟩] ∧
      (⟨tS - epoch, [⟨A, false, [B1, B2]⟩]⟩ : I2CPacket).isWritePacket = true :=
  ⟨_, run_txWrite epoch tS tE A B1 B2 hA hB1 hB2, rfl, rfl⟩

theorem claimC2_witness :
    ∃ s : I2CSniffer, runEvents 0 initSniffer (txWrite 56 1 2 0 0) = some s ∧
      s.packetHistory = [⟨0 - 0, [⟨56, false, [1, 2]⟩]⟩] ∧
      (⟨0 - 0, [⟨56, false, [1, 2]⟩]⟩ : I2CPacket).isWritePacket = true :=
  claimC2_write_transaction 0 0 0 56 1 2 (by decide) (by decide) (by decide)

/-- Claim C3: feeding the decoder the sequence encoding START, A, WRITE,
reg (acked), repeated START, A, READ, D1 (acked), D2 (acked), STOP
produces one completed Packet with exactly two Parcels (first WRITE,
second READ); isReadPacket is true, getRegister returns reg and getData
returns [D1, D2]. -/
theorem claimC3_read_transaction (epoch tS tE : Int) (A reg D1 D2 : Nat)
    (hA : A < 128) (hreg : reg < 256) (hD1 : D1 < 256) (hD2 : D2 < 256) :
    ∃ s : I2CSniffer, runEvents epoch initSniffer (txRead A reg D1 D2 tS tE) = some s ∧
      s.packetHistory = [⟨tS - epoch, [⟨A, false, [reg]⟩, ⟨A, true, [D1, D2]⟩]⟩] ∧
      (⟨tS - epoch, [⟨A, false, [reg]⟩, ⟨A, true, [D1, D2]⟩]⟩ : I2CPacket).isReadPacket = true ∧
      (⟨tS - epoch, [⟨A, false, [reg]⟩, ⟨A, true, [D1, D2]⟩]⟩ : I2CPacket).getRegister = some reg ∧
      (⟨tS - epoch, [⟨A, false, [reg]⟩, ⟨A, true, [D1, D2]⟩]⟩ : I2CPacket).getData = some [D1, D2] :=
  ⟨_, run_txRead epoch tS tE A reg D1 D2 hA hreg hD1 hD2, rfl, rfl, rfl, rfl⟩

theorem claimC3_witness :
    ∃ s : I2CSniffer, runEvents 0 initSniffer (txRead 56 3 17 34 0 0) = some s ∧
      s.packetHistory = [⟨0 - 0, [⟨56, false, [3]⟩, ⟨56, true, [17, 34]⟩]⟩] ∧
      (⟨0 - 0, [⟨56, false, [3]⟩, ⟨56, true, [17, 34]⟩]⟩ : I2CPacket).isReadPacket = true ∧
      (⟨0 - 0, [⟨56, false, [3]⟩, ⟨56, true, [17, 34]⟩]⟩ : I2CPacket).getRegister = some 3 ∧
      (⟨0 - 0, [⟨56, false, [3]⟩, ⟨56, true, [17, 34]⟩]⟩ : I2CPacket).getData = some [17, 34] :=
  claimC3_read_transaction 0 0 0 56 3 17 34 (by decide) (by decide) (by decide) (by decide)

/-- Claim C4 counterexample: decoding a write transaction whose START is
processed at time 5 and whose STOP at time 9 (epoch 0) stores timestamp
5, the START time, not the STOP time 9 that the claim asserts. -/
theorem claimC4_counterexample :
    (runEvents 0 initSniffer (txWrite 56 1 2 5 9)).map
        (fun s => s.packetHistory.map (fun p => p.timestamp)) = some [5] ∧
      (5 : Int) ≠ 9 := by
  rw [run_txWrite 0 5 9 56 1 2 (by decide) (by decide) (by decide)]
  constructor
  · rfl
  · decide

/-- Claim C4 as amended: a completed transaction's Packet stores the time
of the START condition that opened it minus the fixed epoch (the source
creates the Packet, and hence captures the time, at START; the STOP only
pushes it to history). -/
theorem claimC4_amended (epoch tS tE : Int) (A B1 B2 reg : Nat)
    (hA : A < 128) (hB1 : B1 < 256) (hB2 : B2 < 256) (hreg : reg < 256) :
    (∃ s : I2CSniffer, runEvents epoch initSniffer (txWrite A B1 B2 tS tE) = some s ∧
      ∀ p ∈ s.packetHistory, p.timestamp = tS - epoch) ∧
    (∃ s : I2CSniffer, runEvents epoch initSniffer (txRead A reg B1 B2 tS tE) = some s ∧
      ∀ p ∈ s.packetHistory, p.timestamp = tS - epoch) := by
  constructor
  · exact ⟨_, run_txWrite epoch tS tE A B1 B2 hA hB1 hB2, by simp⟩
  · exact ⟨_, run_txRead epoch tS tE A reg B1 B2 hA hreg hB1 hB2, by simp⟩

theorem claimC4_witness :
    (∃ s : I2CSniffer, runEvents 0 initSniffer (txWrite 56 1 2 5 9) = some s ∧
      ∀ p ∈ s.packetHistory, p.timestamp = 5 - 0) ∧
    (∃ s : I2CSniffer, runEvents 0 initSniffer (txRead 56 3 1 2 5 9) = some s ∧
      ∀ p ∈ s.packetHistory, p.timestamp = 5 - 0) :=
  claimC4_amended 0 5 9 56 1 2 3 (by decide) (by decide) (by decide) (by decide)

/-- Claim C10: when a Packet's first Parcel has no data bytes, getRegister
fails (raises IndexError, modelled none) and, for a non-read packet,
getData returns the empty sequence; getRegister yields a value exactly
when the first Parcel has at least one data byte. -/
theorem claimC10_register_safety (pkt : I2CPacket) (pc : I2CParcel)
    (rest : List I2CParcel) (h : pkt.parcels = pc :: rest) :
    (pc.data = [] → pkt.getRegister = none ∧
      (pkt.isReadPacket = false → pkt.getData = some [])) ∧
    (pkt.getRegister.isSome = true ↔ pc.data ≠ []) := by
  constructor
  · intro hdata
    constructor
    · simp [I2CPacket.getRegister, I2CPacket.firstParcel, h, hdata]
    · intro hnr
      simp [I2CPacket.getData, I2CPacket.firstParcel, hnr, h, hdata]
  · simp [I2CPacket.getRegister, I2CPacket.firstParcel, h]
    cases pc.data with
    | nil => simp
    | cons x xs => simp

theorem claimC10_witness :
    ((⟨3, false, []⟩ : I2CParcel).data = [] →
      (⟨0, [⟨3, false, []⟩]⟩ : I2CPacket).getRegister = none ∧
      ((⟨0, [⟨3, false, []⟩]⟩ : I2CPacket).isReadPacket = false →
        (⟨0, [⟨3, false, []⟩]⟩ : I2CPacket).getData = some [])) ∧
    ((⟨0, [⟨3, false, []⟩]⟩ : I2CPacket).getRegister.isSome = true ↔
      (⟨3, false, []⟩ : I2CParcel).data ≠ []) :=
  claimC10_register_safety ⟨0, [⟨3, false, []⟩]⟩ ⟨3, false, []⟩ [] rfl

/-- Claim C6 counterexample: on a history holding exactly one packet the
secondLatest query returns that packet instead of failing: the source
indexes with len-2 = -1, which Python wraps to the last element. -/
theorem claimC6_counterexample :
    I2CSniffer.getSecondLatestPacket
        ⟨none, none, [⟨7, [⟨3, false, []⟩]⟩], 1, 1, 0, 0⟩ =
      some ⟨7, [⟨3, false, []⟩]⟩ := by decide

/-- Claim C6 as amended: secondLatest fails (IndexError, modelled none)
only on an empty history; on a one-packet history the negative index
wraps around and the single (latest) packet is returned; with at least
two packets the second most recently appended packet is returned. -/
theorem claimC6_amended (s : I2CSniffer) :
    (s.packetHistory = [] → s.getSecondLatestPacket = none) ∧
    (∀ p, s.packetHistory = [p] → s.getSecondLatestPacket = some p) ∧
    (∀ l p q, s.packetHistory = l ++ [p, q] → s.getSecondLatestPacket = some p) := by
  refine ⟨?_, ?_, ?_⟩
  · intro h
    simp [I2CSniffer.getSecondLatestPacket, pyIndex, h]
  · intro p h
    simp [I2CSniffer.getSecondLatestPacket, pyIndex, h]
  · intro l p q h
    have hlen : ((l ++ [p, q]).length : Int) - 2 = (l.length : Int) := by
      simp only [List.length_append, List.length_cons, List.length_nil]
      push_cast
      ring
    simp only [I2CSniffer.getSecondLatestPacket, h, hlen]
    rw [pyIndex, if_pos (by positivity)]
    rw [show ((l.length : Int)).toNat = l.length from by omega]
    rw [List.getElem?_append_right (by omega)]
    simp

theorem claimC6_witness :
    ((⟨none, none, [⟨1, []⟩, ⟨2, []⟩], 1, 1, 0, 0⟩ : I2CSniffer).packetHistory = [] →
      (⟨none, none, [⟨1, []⟩, ⟨2, []⟩], 1, 1, 0, 0⟩ : I2CSniffer).getSecondLatestPacket = none) ∧
    (∀ p, (⟨none, none, [⟨1, []⟩, ⟨2, []⟩], 1, 1, 0, 0⟩ : I2CSniffer).packetHistory = [p] →
      (⟨none, none, [⟨1, []⟩, ⟨2, []⟩], 1, 1, 0, 0⟩ : I2CSniffer).getSecondLatestPacket = some p) ∧
    (∀ l p q, (⟨none, none, [⟨1, []⟩, ⟨2, []⟩], 1, 1, 0, 0⟩ : I2CSniffer).packetHistory = l ++ [p, q] →
      (⟨none, none, [⟨1, []⟩, ⟨2, []⟩], 1, 1, 0, 0⟩ : I2CSniffer).getSecondLatestPacket = some p) :=
  claimC6_amended ⟨none, none, [⟨1, []⟩, ⟨2, []⟩], 1, 1, 0, 0⟩

theorem find?_append_of_forall_neg {α : Type} (pred : α → Bool)
    (l1 l2 : List α) (h : ∀ x ∈ l1, pred x = false) :
    (l1 ++ l2).find? pred = l2.find? pred := by
  induction l1 with
  | nil => rfl
  | cons x xs ih =>
    have hx : pred x = false := h x (by simp)
    simp only [List.cons_append, List.find?, hx]
    exact ih (fun y hy => h y (by simp [hy]))

/-- Claim C7: findLatestMatching scans the history newest-to-oldest: it
returns none exactly when no packet in the history matches, and whenever
the history splits as l ++ p :: r with p matching and everything newer
than p (all of r) failing the predicate, it returns p — so among several
matches the most recently appended one wins. -/
theorem claimC7_find_latest (s : I2CSniffer) (pred : I2CPacket → Bool) :
    (s.getLatestWithPredicate pred = none ↔
      ∀ p ∈ s.packetHistory, pred p = false) ∧
    (∀ l p r, s.packetHistory = l ++ p :: r → pred p = true →
      (∀ q ∈ r, pred q = false) → s.getLatestWithPredicate pred = some p) := by
  constructor
  · rw [I2CSniffer.getLatestWithPredicate, List.find?_eq_none]
    constructor
    · intro h p hp
      have := h p (by simp [List.mem_reverse, hp])
      simpa using this
    · intro h p hp
      have := h p (by simpa [List.mem_reverse] using hp)
      simp [this]
  · intro l p r hsplit hp hr
    rw [I2CSniffer.getLatestWithPredicate, hsplit]
    rw [show (l ++ p :: r).reverse = r.reverse ++ (p :: l.reverse) from by simp]
    rw [find?_append_of_forall_neg pred r.reverse _
      (fun q hq => hr q (by simpa [List.mem_reverse] using hq))]
    exact List.find?_cons_of_pos _ hp

theorem claimC7_witness :
    ((⟨none, none, [⟨1, []⟩, ⟨2, []⟩, ⟨3, []⟩], 1, 1, 0, 0⟩ : I2CSniffer).getLatestWithPredicate
        (fun p => decide (p.timestamp < 3)) = none ↔
      ∀ p ∈ (⟨none, none, [⟨1, []⟩, ⟨2, []⟩, ⟨3, []⟩], 1, 1, 0, 0⟩ : I2CSniffer).packetHistory,
        (fun p => decide (p.timestamp < 3)) p = false) ∧
    (∀ l p r, (⟨none, none, [⟨1, []⟩, ⟨2, []⟩, ⟨3, []⟩], 1, 1, 0, 0⟩ : I2CSniffer).packetHistory = l ++ p :: r →
      (fun p => decide (p.timestamp < 3)) p = true →
      (∀ q ∈ r, (fun p => decide (p.timestamp < 3)) q = false) →
      (⟨none, none, [⟨1, []⟩, ⟨2, []⟩, ⟨3, []⟩], 1, 1, 0, 0⟩ : I2CSniffer).getLatestWithPredicate
        (fun p => decide (p.timestamp < 3)) = some p) :=
  claimC7_find_latest ⟨none, none, [⟨1, []⟩, ⟨2, []⟩, ⟨3, []⟩], 1, 1, 0, 0⟩
    (fun p => decide (p.timestamp < 3))

/-- Claim C5 counterexample: a falling-SCL event matches none of the three
rules (bit-sampling, START, STOP) yet changes the decoder state: the
recorded clock level is updated from 1 to 0, so the state is not
byte-for-byte unchanged as the claim asserts. -/
theorem claimC5_counterexample :
    ¬ (classifyLine initSniffer.oldSCL 0 = RISING ∧ initSniffer.parcel ≠ none) ∧
    ¬ (classifyLine initSniffer.oldSCL 0 = STEADY ∧ (0 : Nat) = 1 ∧
        classifyLine initSniffer.oldSDA 1 = FALLING) ∧
    ¬ (classifyLine initSniffer.oldSCL 0 = STEADY ∧ (0 : Nat) = 1 ∧
        classifyLine initSniffer.oldSDA 1 = RISING ∧ initSniffer.parcel ≠ none) ∧
    parse 0 initSniffer 0 1 0 ≠ some initSniffer := by decide

/-- Claim C5 as amended: an edge event matching none of the three rules
leaves the packet, parcel, history, accumulator and bit count unchanged,
and only the recorded line levels are overwritten with the observed
levels (which is the edge classifier's side effect). -/
theorem claimC5_amended (epoch t : Int) (s : I2CSniffer) (SCL SDA : Nat)
    (h1 : ¬ (classifyLine s.oldSCL SCL = RISING ∧ s.parcel ≠ none))
    (h2 : ¬ (classifyLine s.oldSCL SCL = STEADY ∧ SCL = 1 ∧
        classifyLine s.oldSDA SDA = FALLING))
    (h3 : ¬ (classifyLine s.oldSCL SCL = STEADY ∧ SCL = 1 ∧
        classifyLine s.oldSDA SDA = RISING ∧ s.parcel ≠ none)) :
    parse epoch s SCL SDA t = some { s with oldSCL := SCL, oldSDA := SDA } := by
  unfold parse parseBody
  split_ifs with g1 g2 g3 g4
  · exact absurd g1 h1
  · exact absurd ⟨g2.1, g2.2, g3⟩ h2
  · exact absurd ⟨g2.1, g2.2, g4⟩ h3
  · rfl
  · rfl

theorem claimC5_witness :
    parse 0 initSniffer 0 1 0 = some { initSniffer with oldSCL := 0, oldSDA := 1 } :=
  claimC5_amended 0 0 initSniffer 0 1 (by decide) (by decide) (by decide)

/-- Claim C1: on a rising clock edge with a parcel in progress the bit
count n = nbits+1 determines the emission: n = 7 latches the accumulator
as the address and resets it; n = 8 latches the direction (READ exactly
when the accumulated bit is 1, hence WRITE for 0) and resets; for n > 8
with k = (n-10) mod 9 + 1 (Python semantics, integer emod), k = 8 appends
the accumulator to the parcel data and resets, k = 9 discards the
acknowledgment bit and resets; at every other bit count only accumulation
(accumulator * 2 + data bit) occurs; the packet and the history are never
touched. -/
theorem claimC1_bit_classification (epoch t : Int) (s : I2CSniffer)
    (pc : I2CParcel) (SDA : Nat) (hpc : s.parcel = some pc)
    (hscl : s.oldSCL = 0) (hsda : SDA ≤ 1) :
    ∃ s2 : I2CSniffer, parse epoch s 1 SDA t = some s2 ∧
      s2.nbits = s.nbits + 1 ∧ s2.packet = s.packet ∧
      s2.packetHistory = s.packetHistory ∧
      (s.nbits + 1 = 7 → s2.value = 0 ∧
        s2.parcel = some (pc.setAddress (s.value * 2 + SDA))) ∧
      (s.nbits + 1 = 8 → s2.value = 0 ∧
        s2.parcel = some (pc.setIsRead (s.value * 2 + SDA == 1))) ∧
      (8 < s.nbits + 1 → kOf (s.nbits + 1) = 8 → s2.value = 0 ∧
        s2.parcel = some (pc.addDataByte (s.value * 2 + SDA))) ∧
      (8 < s.nbits + 1 → kOf (s.nbits + 1) = 9 → s2.value = 0 ∧
        s2.parcel = some pc) ∧
      (s.nbits + 1 ≠ 7 → s.nbits + 1 ≠ 8 → kOf (s.nbits + 1) ≠ 8 →
        kOf (s.nbits + 1) ≠ 9 →
        s2.value = s.value * 2 + SDA ∧ s2.parcel = some pc) := by
  cases s with
  | mk pk pc0 hist oscl osda v n =>
    simp only [] at hpc hscl
    subst hpc; subst hscl
    rw [parse_rise epoch t _ SDA rfl]
    dsimp only
    have hv : (v <<< 1) ||| SDA = v * 2 + SDA := by
      rw [shiftLor v SDA hsda]; ring
    refine ⟨_, rfl, ?_, ?_, ?_, ?_, ?_, ?_, ?_, ?_⟩
    · simp only [sampleBit]
      split_ifs <;> rfl
    · simp only [sampleBit]
      split_ifs <;> rfl
    · simp only [sampleBit]
      split_ifs <;> rfl
    · intro h7
      simp [sampleBit, h7, hv]
    · intro h8
      simp [sampleBit, h8, hv]
    · intro hgt hk8
      simp only [kOf] at hk8
      have h7 : ¬ (n + 1 = 7) := by omega
      have h8 : ¬ (n + 1 = 8) := by omega
      push_cast at hk8
      simp [sampleBit, h7, h8, hk8, hv]
    · intro hgt hk9
      simp only [kOf] at hk9
      have h7 : ¬ (n + 1 = 7) := by omega
      have h8 : ¬ (n + 1 = 8) := by omega
      have hk8 : ¬ (((n : Int) + 1 - 10) % 9 + 1 = 8) := by push_cast at hk9 ⊢; omega
      push_cast at hk9
      simp [sampleBit, h7, h8, hk8, hk9]
    · intro h7 h8 hk8 hk9
      simp only [kOf] at hk8 hk9
      push_cast at hk8 hk9
      simp [sampleBit, h7, h8, hk8, hk9, hv]

theorem claimC1_witness :
    ∃ s2 : I2CSniffer,
      parse 0 (⟨some ⟨0, []⟩, some ⟨0, true, []⟩, [], 0, 0, 3, 4⟩ : I2CSniffer) 1 1 0 = some s2 ∧
      s2.nbits = (4 : Nat) + 1 ∧ s2.packet = some ⟨0, []⟩ ∧
      s2.packetHistory = [] ∧
      ((4 : Nat) + 1 = 7 → s2.value = 0 ∧
        s2.parcel = some (I2CParcel.setAddress ⟨0, true, []⟩ (3 * 2 + 1))) ∧
      ((4 : Nat) + 1 = 8 → s2.value = 0 ∧
        s2.parcel = some (I2CParcel.setIsRead ⟨0, true, []⟩ (3 * 2 + 1 == 1))) ∧
      (8 < (4 : Nat) + 1 → kOf ((4 : Nat) + 1) = 8 → s2.value = 0 ∧
        s2.parcel = some (I2CParcel.addDataByte ⟨0, true, []⟩ (3 * 2 + 1))) ∧
      (8 < (4 : Nat) + 1 → kOf ((4 : Nat) + 1) = 9 → s2.value = 0 ∧
        s2.parcel = some ⟨0, true, []⟩) ∧
      ((4 : Nat) + 1 ≠ 7 → (4 : Nat) + 1 ≠ 8 → kOf ((4 : Nat) + 1) ≠ 8 →
        kOf ((4 : Nat) + 1) ≠ 9 →
        s2.value = 3 * 2 + 1 ∧ s2.parcel = some ⟨0, true, []⟩) :=
  claimC1_bit_classification 0 0 ⟨some ⟨0, []⟩, some ⟨0, true, []⟩, [], 0, 0, 3, 4⟩
    ⟨0, true, []⟩ 1 rfl rfl (by decide)

theorem parse_hist_shape (epoch t : Int) (SCL SDA : Nat) (s s2 : I2CSniffer)
    (h : parse epoch s SCL SDA t = some s2) :
    s2.packetHistory = s.packetHistory ∨
    ∃ (pk : I2CPacket) (pc : I2CParcel),
      s2.packetHistory = s.packetHistory ++ [pk.addParcel pc] := by
  cases s with
  | mk pk0 pc0 hist oscl osda v n =>
    unfold parse parseBody at h
    cases pc0 <;> cases pk0 <;>
      (dsimp only at h
       split_ifs at h <;>
        first
          | (injection h with h2; subst h2; left; rfl)
          | (injection h with h2; subst h2; right; exact ⟨_, _, rfl⟩))

/-- Claim C8: every Packet in the history of any state reachable from the
initial decoder state has at least one Parcel: the only rule that appends
to the history is STOP, which first attaches the in-progress Parcel to
the Packet with addParcel (an append at the tail, so parcels sit in
insertion = bus order), making a closed Packet non-empty by
construction. -/
theorem claimC8_history_nonempty (epoch : Int) (evs : List Ev)
    (s : I2CSniffer) (h : runEvents epoch initSniffer evs = some s) :
    ∀ p ∈ s.packetHistory, p.parcels ≠ [] := by
  suffices hgen : ∀ (evs : List Ev) (s0 s : I2CSniffer),
      (∀ p ∈ s0.packetHistory, p.parcels ≠ []) →
      runEvents epoch s0 evs = some s → ∀ p ∈ s.packetHistory, p.parcels ≠ [] by
    exact hgen evs initSniffer s (by simp [initSniffer]) h
  intro evs
  induction evs with
  | nil =>
    intro s0 s hinv h
    simp only [runEvents] at h
    injection h with h2
    subst h2
    exact hinv
  | cons e es ih =>
    intro s0 s hinv h
    simp only [runEvents] at h
    split at h
    · rename_i s1 hs1
      refine ih s1 s ?_ h
      rcases parse_hist_shape epoch e.t e.SCL e.SDA s0 s1 hs1 with heq | ⟨pk, pc, heq⟩
      · rw [heq]; exact hinv
      · rw [heq]
        intro p hp
        rcases List.mem_append.mp hp with hp1 | hp2
        · exact hinv p hp1
        · have hpeq : p = pk.addParcel pc := by simpa using hp2
          subst hpeq
          simp [I2CPacket.addParcel]
    · cases h

theorem claimC8_witness :
    (⟨0 - 0, [⟨56, false, [1, 2]⟩]⟩ : I2CPacket).parcels ≠ [] :=
  claimC8_history_nonempty 0 (txWrite 56 1 2 0 0) _
    (run_txWrite 0 0 0 56 1 2 (by decide) (by decide) (by decide))
    ⟨0 - 0, [⟨56, false, [1, 2]⟩]⟩ (by decide)

theorem parse_pair (epoch t : Int) (SCL SDA : Nat) (s : I2CSniffer)
    (hinv : s.packet = none ↔ s.parcel = none) :
    ∃ s2, parse epoch s SCL SDA t = some s2 ∧
      (s2.packet = none ↔ s2.parcel = none) := by
  cases s with
  | mk pk0 pc0 hist oscl osda v n =>
    cases pc0 with
    | none =>
      have hpk : pk0 = none := hinv.mpr rfl
      subst hpk
      unfold parse parseBody
      dsimp only
      split_ifs with g1 g2 g3 g4 <;>
        first
          | exact absurd rfl g1.2
          | exact absurd rfl g4.2
          | exact ⟨_, rfl, by simp⟩
    | some pc =>
      have hpk : ∃ pkv, pk0 = some pkv := by
        cases pk0 with
        | none => exact absurd (hinv.mp rfl) (by simp)
        | some pkv => exact ⟨pkv, rfl⟩
      obtain ⟨pkv, rfl⟩ := hpk
      unfold parse parseBody
      dsimp only
      split_ifs <;> exact ⟨_, rfl, by simp⟩

/-- Claim C9: from the initial state, any sequence of edge events leaves
the decoder in a state where the in-progress Packet is absent exactly
when the in-progress Parcel is absent; in particular processing never
raises (runEvents always returns some state), so the STOP rule, guarded
only on the Parcel, never dereferences an absent Packet. -/
theorem claimC9_pair_invariant (epoch : Int) (evs : List Ev) :
    ∃ s : I2CSniffer, runEvents epoch initSniffer evs = some s ∧
      (s.packet = none ↔ s.parcel = none) := by
  suffices hgen : ∀ (evs : List Ev) (s0 : I2CSniffer),
      (s0.packet = none ↔ s0.parcel = none) →
      ∃ s, runEvents epoch s0 evs = some s ∧ (s.packet = none ↔ s.parcel = none) by
    exact hgen evs initSniffer (by simp [initSniffer])
  intro evs
  induction evs with
  | nil =>
    intro s0 h0
    exact ⟨s0, rfl, h0⟩
  | cons e es ih =>
    intro s0 h0
    obtain ⟨s1, hs1, h1⟩ := parse_pair epoch e.t e.SCL e.SDA s0 h0
    obtain ⟨s2, hs2, h2⟩ := ih s1 h1
    refine ⟨s2, ?_, h2⟩
    simp only [runEvents, hs1]
    exact hs2
